import Mathlib

/-!
Verification of the status ↔ Kanban-column inference engine of the joan-mcp
repository: the column matcher (`findColumnByName`, `findColumnByPosition`,
`inferColumnFromStatus`), the default-column resolver (`findDefaultColumn`),
the inverse status inferrer (`inferStatusFromColumn`), and the column-sync
telemetry collector (`ColumnSyncTelemetry`).

The embedding follows `src/utils/column-mapper.ts` (the version with fuzzy
matching and the seven-status alias table), `src/utils/column-sync-telemetry.ts`,
and the `ProjectColumn` record of `src/client/types.ts`.  JavaScript strings
are modelled as Lean `String`, `toLowerCase()` and `trim()` character-wise
over the underlying character list (`jsToLower`, `jsTrim`), arrays as `List`,
the stable `Array.prototype.sort` by `position` as an insertion sort, and a
function that may `throw` as one returning `Except String`.
-/

namespace JoanMcp

/-- One lane of a project's Kanban board (`ProjectColumn` in
`src/client/types.ts`), restricted to the fields the synchronizer reads. -/
structure ProjectColumn where
  id : String
  project_id : String
  name : String
  position : Int
  wip_limit : Option Nat
  is_default : Bool
deriving Repr, DecidableEq

/-- JavaScript `String.prototype.toLowerCase`, modelled per character (the
strings the synchronizer handles are ASCII). -/
def jsToLower (s : String) : String := String.mk (s.data.map Char.toLower)

/-- JavaScript `String.prototype.trim`: strip leading and trailing
whitespace. -/
def jsTrim (s : String) : String :=
  String.mk (((s.data.dropWhile Char.isWhitespace).reverse.dropWhile
    Char.isWhitespace).reverse)

/-- The normalization `x.toLowerCase().trim()` the matcher applies to both
column names and status strings. -/
def normalizeName (s : String) : String := jsTrim (jsToLower s)

/-- `STATUS_COLUMN_NAMES`: common column name variations for each status,
in the insertion order of the source record (`Object.entries` iteration
order). -/
def STATUS_COLUMN_NAMES : List (String × List String) :=
  [ ("todo", ["to do", "todo", "to-do", "backlog", "pending", "new", "open", "ready"]),
    ("in_progress", ["in progress", "in_progress", "in-progress", "doing", "wip", "working", "active", "development", "dev"]),
    ("review", ["review", "reviewing", "code review", "testing", "qa", "test"]),
    ("deploy", ["deploy", "deployment", "deploying", "staging", "production"]),
    ("done", ["done", "completed", "complete", "finished", "closed", "resolved"]),
    ("cancelled", ["cancelled", "canceled", "archived", "removed", "rejected", "abandoned"]),
    ("blocked", ["blocked", "waiting", "on hold", "paused"]) ]

/-- Inner step of the Levenshtein dynamic program: given the character
`bc = b[i-1]`, the remaining characters of `a`, the previous matrix row
starting at the diagonal entry `matrix[i-1][j-1]`, and the entry to the left
(`matrix[i][j-1]`), produce the entries `matrix[i][j], matrix[i][j+1], ...`. -/
def levRowAux (bc : Char) : List Char → List Nat → Nat → List Nat
  | [], _, _ => []
  | ac :: as, diag :: rest, left =>
      let up := rest.headD 0
      let cur := if bc = ac then diag else
        Nat.min (diag + 1) (Nat.min (left + 1) (up + 1))
      cur :: levRowAux bc as rest cur
  | _ :: _, [], _ => []

/-- Row-by-row fill of the Levenshtein matrix: `prev` is row `i`, and we
process the remaining characters of `b`, returning the final row. -/
def levRows (as : List Char) : List Char → List Nat → Nat → List Nat
  | [], prev, _ => prev
  | bc :: bs, prev, i =>
      levRows as bs ((i + 1) :: levRowAux bc as prev (i + 1)) (i + 1)

/-- `levenshteinDistance(a, b)`: the edit distance computed by the matrix
dynamic program of `src/utils/column-mapper.ts`; the result is
`matrix[b.length][a.length]`. -/
def levenshteinDistance (a b : String) : Nat :=
  let as := a.data
  let row0 : List Nat := List.range (as.length + 1)
  (levRows as b.data row0 0).getD as.length 0

/-- Strategy 2 of `findColumnByName`: iterate over the alias-table entries in
order; for each entry whose alias set contains the normalized status, scan the
columns (in input order) for one whose normalized name is in the same alias
set; continue with later entries when the scan fails. -/
def findAliasMatch (normalizedStatus : String) (columns : List ProjectColumn) :
    List (String × List String) → Option ProjectColumn
  | [] => none
  | (_, aliases) :: rest =>
      if aliases.contains normalizedStatus then
        match columns.find? (fun col => aliases.contains (normalizeName col.name)) with
        | some col => some col
        | none => findAliasMatch normalizedStatus columns rest
      else findAliasMatch normalizedStatus columns rest

/-- `findColumnByName(columns, status)`: exact case-insensitive match first,
then the alias-table match, then a fuzzy match accepting the first column (in
input order) at Levenshtein distance ≤ 2. -/
def findColumnByName (columns : List ProjectColumn) (status : String) :
    Option ProjectColumn :=
  match columns.find? (fun col => normalizeName col.name == normalizeName status) with
  | some col => some col
  | none =>
      match findAliasMatch (normalizeName status) columns STATUS_COLUMN_NAMES with
      | some col => some col
      | none =>
          columns.find? (fun col =>
            decide (levenshteinDistance (normalizeName col.name) (normalizeName status) ≤ 2))

/-- The relation by which `[...columns].sort((a, b) => a.position - b.position)`
orders columns. -/
def posLe (a b : ProjectColumn) : Prop := a.position ≤ b.position

instance : DecidableRel posLe := fun a b => Int.decLe a.position b.position

instance : IsTotal ProjectColumn posLe := ⟨fun a b => Int.le_total a.position b.position⟩

instance : IsTrans ProjectColumn posLe := ⟨fun _ _ _ h h' => le_trans h h'⟩

instance : IsRefl ProjectColumn posLe := ⟨fun a => le_refl a.position⟩

/-- The stable sort by `position` that the source performs on a copy of the
column array. -/
def sortByPosition (columns : List ProjectColumn) : List ProjectColumn :=
  List.insertionSort posLe columns

/-- `findColumnByPosition(columns, status)`: positional fallback; `todo` maps
to the first column of the position-sorted list, `done` to its last, any other
status has no positional fallback. -/
def findColumnByPosition (columns : List ProjectColumn) (status : String) :
    Option ProjectColumn :=
  if columns.isEmpty then none
  else
    let sorted := sortByPosition columns
    if status = "todo" then sorted.head?
    else if status = "done" then sorted.getLast?
    else none

/-- `findDefaultColumn(columns)`: the column marked `is_default`, else the
first column by position, else `null` for an empty list. -/
def findDefaultColumn (columns : List ProjectColumn) : Option ProjectColumn :=
  if columns.isEmpty then none
  else
    match columns.find? (fun col => col.is_default) with
    | some defaultCol => some defaultCol
    | none => (sortByPosition columns).head?

/-- The options record of `inferColumnFromStatus`. -/
structure InferOptions where
  required : Bool := false
deriving Repr, DecidableEq

/-- `STATUS_COLUMN_NAMES[status]?.join(', ') || 'unknown'` from the
required-mode error path. -/
def expectedNamesFor (status : String) : String :=
  match STATUS_COLUMN_NAMES.find? (fun p => p.1 == status) with
  | some p =>
      if String.intercalate ", " p.2 = "" then "unknown"
      else String.intercalate ", " p.2
  | none => "unknown"

/-- `columns.map(c => c.name).join(', ')`. -/
def availableNames (columns : List ProjectColumn) : String :=
  String.intercalate ", " (columns.map (fun c => c.name))

/-- The single-quote character used in the source's error messages. -/
def sq : String := String.singleton (Char.ofNat 39)

/-- `inferColumnFromStatus(columns, status, options)`: name-based matching,
then positional fallback, then failure — `null` in lenient mode, a thrown
`Error` (modelled as `Except.error` carrying the message) in required mode. -/
def inferColumnFromStatus (columns : List ProjectColumn) (status : String)
    (options : InferOptions := {}) : Except String (Option ProjectColumn) :=
  if columns.isEmpty then
    if options.required then
      Except.error ("Cannot find column for status=" ++ sq ++ status ++ sq ++
        ". Project has no columns.")
    else Except.ok none
  else
    match findColumnByName columns status with
    | some byName => Except.ok (some byName)
    | none =>
        match findColumnByPosition columns status with
        | some byPosition => Except.ok (some byPosition)
        | none =>
            if options.required then
              Except.error ("Cannot find column for status=" ++ sq ++ status ++ sq ++
                ". Expected column names: " ++ expectedNamesFor status ++
                ". Available: " ++ availableNames columns)
            else Except.ok none

/-- Modelled from the spec: the definition of `inferStatusFromColumn` lives in
`src/utils/column-mapper.ts` but is absent from the provided sources (only
its import and call sites in `src/tools/tasks.ts` are present).  Per §4.2, it
normalizes the column name and checks membership across each canonical
status's alias set of the same alias table; the first matching canonical
status wins (stable iteration order), and it returns `null` when the column
name matches no alias — no fuzzy and no positional fallback in this
direction. -/
def inferStatusFromColumn (column : ProjectColumn) : Option String :=
  (STATUS_COLUMN_NAMES.find? (fun p => p.2.contains (normalizeName column.name))).map
    (fun p => p.1)

/-- One column-sync event (`ColumnSyncEvent` in
`src/utils/column-sync-telemetry.ts`). -/
structure ColumnSyncEvent where
  task_id : String
  task_number : Nat
  operation : String
  status_before : String
  status_after : String
  column_before : String
  column_after : String
  inferred : Bool
  inference_failed : Bool
  timestamp : String
deriving Repr, DecidableEq

/-- `ColumnSyncTelemetry.log(event)`: append the event, its `timestamp` field
replaced by the current clock reading `now` (`new Date().toISOString()`), to
the in-memory event list.  The telemetry instance's mutable `events` array is
modelled by explicit state passing. -/
def telemetryLog (events : List ColumnSyncEvent) (event : ColumnSyncEvent)
    (now : String) : List ColumnSyncEvent :=
  events ++ [{ event with timestamp := now }]

/-- `ColumnSyncTelemetry.getFailures()`: all events where inference failed,
in log order. -/
def getFailures (events : List ColumnSyncEvent) : List ColumnSyncEvent :=
  events.filter (fun e => e.inference_failed)

/-- The record returned by `ColumnSyncTelemetry.getMetrics()`.  JavaScript
number division is modelled over `ℚ`. -/
structure ColumnSyncMetrics where
  total_events : Nat
  failures : Nat
  inferred_syncs : Nat
  failure_rate : ℚ
  success_rate : ℚ
deriving Repr, DecidableEq

/-- `ColumnSyncTelemetry.getMetrics()`. -/
def getMetrics (events : List ColumnSyncEvent) : ColumnSyncMetrics :=
  let total := events.length
  let failures := (events.filter (fun e => e.inference_failed)).length
  let inferredSyncs := (events.filter (fun e => e.inferred)).length
  { total_events := total
    failures := failures
    inferred_syncs := inferredSyncs
    failure_rate := if total > 0 then (failures : ℚ) / (total : ℚ) else 0
    success_rate := if total > 0 then ((total : ℚ) - (failures : ℚ)) / (total : ℚ) else 0 }

/-- `ColumnSyncTelemetry.getRecentFailures(limit = 10)`: the failed events,
then `Array.prototype.slice(-limit)`.  For `limit ≥ 1` a negative start index
clamps to `length - limit` (at least `0`); for `limit = 0`, `slice(-0)` is
`slice(0)`, the whole array. -/
def getRecentFailures (events : List ColumnSyncEvent) (limit : Nat := 10) :
    List ColumnSyncEvent :=
  let failed := events.filter (fun e => e.inference_failed)
  if limit = 0 then failed
  else failed.drop (failed.length - limit)

/-- Recording a sequence of events from a fresh telemetry instance: each input
pairs the event with the clock reading at its `log` call. -/
def recordAll (inputs : List (ColumnSyncEvent × String)) : List ColumnSyncEvent :=
  inputs.foldl (fun events p => telemetryLog events p.1 p.2) []

/-! Helper lemmas about the stable sort by position. -/

lemma sortByPosition_perm (l : List ProjectColumn) : List.Perm (sortByPosition l) l :=
  List.perm_insertionSort posLe l

lemma sortByPosition_sorted (l : List ProjectColumn) :
    (sortByPosition l).Sorted posLe :=
  List.sorted_insertionSort posLe l

lemma mem_of_getLastOpt : ∀ {l : List ProjectColumn} {c : ProjectColumn},
    l.getLast? = some c → c ∈ l
  | [a], _, h => by
      simp only [List.getLast?_singleton, Option.some.injEq] at h
      simp [h]
  | a :: b :: t, c, h => by
      rw [List.getLast?_cons_cons] at h
      exact List.mem_cons_of_mem a (mem_of_getLastOpt h)

lemma sorted_rel_getLastOpt : ∀ {l : List ProjectColumn}, l.Sorted posLe →
    ∀ {c : ProjectColumn}, l.getLast? = some c → ∀ d ∈ l, posLe d c
  | [a], _, c, hc, d, hd => by
      simp only [List.getLast?_singleton, Option.some.injEq] at hc
      simp only [List.mem_singleton] at hd
      subst hc; subst hd; exact le_refl _
  | a :: b :: t, hs, c, hc, d, hd => by
      rw [List.getLast?_cons_cons] at hc
      rcases List.mem_cons.mp hd with rfl | hd2
      · exact List.rel_of_sorted_cons hs _ (mem_of_getLastOpt hc)
      · exact sorted_rel_getLastOpt (List.Sorted.of_cons hs) hc d hd2

lemma sortByPosition_ne_nil {l : List ProjectColumn} (h : l ≠ []) :
    sortByPosition l ≠ [] := by
  intro hnil
  have hp := (sortByPosition_perm l).symm
  rw [hnil] at hp
  exact h hp.eq_nil

lemma sortByPosition_head_min {l : List ProjectColumn} (h : l ≠ []) :
    ∃ c, (sortByPosition l).head? = some c ∧ c ∈ l ∧
      ∀ d ∈ l, c.position ≤ d.position := by
  obtain ⟨c, rest, hEq⟩ := List.exists_cons_of_ne_nil (sortByPosition_ne_nil h)
  refine ⟨c, by rw [hEq]; rfl, ?_, ?_⟩
  · exact (sortByPosition_perm l).mem_iff.mp (by rw [hEq]; exact List.mem_cons_self _ _)
  · intro d hd
    have hd2 : d ∈ c :: rest := hEq ▸ (sortByPosition_perm l).mem_iff.mpr hd
    rcases List.mem_cons.mp hd2 with rfl | hd3
    · exact le_refl _
    · exact List.rel_of_sorted_cons (hEq ▸ sortByPosition_sorted l) d hd3

lemma sortByPosition_getLast_max {l : List ProjectColumn} (h : l ≠ []) :
    ∃ c, (sortByPosition l).getLast? = some c ∧ c ∈ l ∧
      ∀ d ∈ l, d.position ≤ c.position := by
  obtain ⟨c, rest, hEq⟩ := List.exists_cons_of_ne_nil (sortByPosition_ne_nil h)
  have hlast : (sortByPosition l).getLast? = some ((c :: rest).getLast (by simp)) := by
    rw [hEq]
    exact List.getLast?_eq_getLast _ _
  refine ⟨(c :: rest).getLast (by simp), hlast, ?_, ?_⟩
  · exact (sortByPosition_perm l).mem_iff.mp
      (mem_of_getLastOpt (l := sortByPosition l) hlast)
  · intro d hd
    exact sorted_rel_getLastOpt (sortByPosition_sorted l) hlast d
      ((sortByPosition_perm l).mem_iff.mpr hd)

/-- Claim C1 counterexample: with an empty column list and `required = true`,
`inferColumnFromStatus` raises (modelled as `Except.error`) instead of
returning `null`, already for the status `"done"`. -/
theorem claim1_counterexample :
    inferColumnFromStatus [] "done" { required := true } =
      Except.error ("Cannot find column for status=" ++ sq ++ "done" ++ sq ++
        ". Project has no columns.") := rfl

/-- Claim C1 (amended): for every status string, with an empty column list
`inferColumnFromStatus` returns `null` in lenient mode but raises in strict
(`required = true`) mode, and `findDefaultColumn` of an empty list returns
`null`. -/
theorem claim1_empty_columns (status : String) :
    inferColumnFromStatus [] status = Except.ok none
    ∧ inferColumnFromStatus [] status { required := false } = Except.ok none
    ∧ inferColumnFromStatus [] status { required := true } =
        Except.error ("Cannot find column for status=" ++ sq ++ status ++ sq ++
          ". Project has no columns.")
    ∧ findDefaultColumn [] = none :=
  ⟨rfl, rfl, rfl, rfl⟩

/-- Claim C2 counterexample: on columns `["To Do", "Doing", "Deon"]` and
status `"done"`, the matcher returns the column named `"Doing"` (the first in
input order at edit distance ≤ 2), not `"Deon"`; moreover the edit distance
between `"deon"` and `"done"` is 2, not 1. -/
theorem claim2_counterexample :
    inferColumnFromStatus
        [⟨"1", "p", "To Do", 0, none, false⟩,
         ⟨"2", "p", "Doing", 1, none, false⟩,
         ⟨"3", "p", "Deon", 2, none, false⟩] "done" =
      Except.ok (some ⟨"2", "p", "Doing", 1, none, false⟩)
    ∧ levenshteinDistance "deon" "done" = 2 :=
  ⟨rfl, rfl⟩

/-- Claim C2 (amended): for the column list `["To Do", "Doing", "Deon"]` and
status `"done"`, the matcher returns the column `"Doing"` via fuzzy match —
the first column in input order with edit distance ≤ 2 (`"doing"` and
`"deon"` are both at distance 2 from `"done"`); and if a column named
`"Done"` is also present, that column is returned instead (name match beats
fuzzy match). -/
theorem claim2_fuzzy_first_in_order :
    inferColumnFromStatus
        [⟨"1", "p", "To Do", 0, none, false⟩,
         ⟨"2", "p", "Doing", 1, none, false⟩,
         ⟨"3", "p", "Deon", 2, none, false⟩] "done" =
      Except.ok (some ⟨"2", "p", "Doing", 1, none, false⟩)
    ∧ inferColumnFromStatus
        [⟨"1", "p", "To Do", 0, none, false⟩,
         ⟨"2", "p", "Doing", 1, none, false⟩,
         ⟨"3", "p", "Deon", 2, none, false⟩,
         ⟨"4", "p", "Done", 3, none, false⟩] "done" =
      Except.ok (some ⟨"4", "p", "Done", 3, none, false⟩)
    ∧ levenshteinDistance "doing" "done" = 2
    ∧ levenshteinDistance "deon" "done" = 2 :=
  ⟨rfl, rfl, rfl, rfl⟩

/-- Claim C3: whenever some column's lower-cased, trimmed name equals the
lower-cased, trimmed status, `inferColumnFromStatus` returns the first such
column in input order, for every `options` value. -/
theorem claim3_exact_match_wins (columns : List ProjectColumn) (status : String)
    (opts : InferOptions) (col : ProjectColumn)
    (h : columns.find? (fun c => normalizeName c.name == normalizeName status) = some col) :
    inferColumnFromStatus columns status opts = Except.ok (some col) := by
  cases columns with
  | nil => simp at h
  | cons a as =>
      simp [inferColumnFromStatus, findColumnByName, h]

/-- Witness for claim C3 at a concrete input. -/
theorem claim3_witness :
    inferColumnFromStatus [⟨"1", "p", " TODO ", 5, none, false⟩] "todo"
        { required := true } =
      Except.ok (some ⟨"1", "p", " TODO ", 5, none, false⟩) :=
  claim3_exact_match_wins _ _ _ _ rfl

lemma isEmpty_false_of_ne_nil {l : List ProjectColumn} (h : l ≠ []) :
    l.isEmpty = false := by
  cases l with
  | nil => exact absurd rfl h
  | cons a as => rfl

lemma findColumnByPosition_other (columns : List ProjectColumn) (s : String)
    (h1 : s ≠ "todo") (h2 : s ≠ "done") :
    findColumnByPosition columns s = none := by
  by_cases hE : columns.isEmpty
  · simp [findColumnByPosition, hE]
  · simp [findColumnByPosition, hE, h1, h2]

/-- Claim C4: on a non-empty column list where the name-based strategies all
fail for `"in_progress"` (a status with no positional fallback), required mode
raises an error carrying the status, the alias names expected for it, and the
available column names, while lenient mode returns `null`. -/
theorem claim4_required_mode_error (columns : List ProjectColumn)
    (hne : columns ≠ [])
    (h : findColumnByName columns "in_progress" = none) :
    inferColumnFromStatus columns "in_progress" { required := true } =
      Except.error ("Cannot find column for status=" ++ sq ++ "in_progress" ++ sq ++
        ". Expected column names: " ++ expectedNamesFor "in_progress" ++
        ". Available: " ++ availableNames columns)
    ∧ expectedNamesFor "in_progress" =
        "in progress, in_progress, in-progress, doing, wip, working, active, development, dev"
    ∧ inferColumnFromStatus columns "in_progress" { required := false } =
      Except.ok none := by
  have hpos : findColumnByPosition columns "in_progress" = none :=
    findColumnByPosition_other columns "in_progress" (by decide) (by decide)
  have hiE := isEmpty_false_of_ne_nil hne
  refine ⟨?_, rfl, ?_⟩ <;> simp [inferColumnFromStatus, hiE, h, hpos]

/-- Witness for claim C4 at a concrete input. -/
theorem claim4_witness :
    inferColumnFromStatus [⟨"1", "p", "zzzzzz", 0, none, false⟩] "in_progress"
        { required := true } =
      Except.error ("Cannot find column for status=" ++ sq ++ "in_progress" ++ sq ++
        ". Expected column names: " ++ expectedNamesFor "in_progress" ++
        ". Available: " ++ availableNames [⟨"1", "p", "zzzzzz", 0, none, false⟩]) :=
  (claim4_required_mode_error [⟨"1", "p", "zzzzzz", 0, none, false⟩]
    (by simp) rfl).1

/-- Claim C5: on a non-empty column list where the name-based strategies fail,
`"todo"` resolves positionally to a lowest-position column, `"done"` to a
highest-position column, and every other status has no positional fallback. -/
theorem claim5_positional_fallback (columns : List ProjectColumn)
    (hne : columns ≠ []) :
    (findColumnByName columns "todo" = none →
      ∃ c, inferColumnFromStatus columns "todo" = Except.ok (some c) ∧
        c ∈ columns ∧ ∀ d ∈ columns, c.position ≤ d.position)
    ∧ (findColumnByName columns "done" = none →
      ∃ c, inferColumnFromStatus columns "done" = Except.ok (some c) ∧
        c ∈ columns ∧ ∀ d ∈ columns, d.position ≤ c.position)
    ∧ (∀ s, s ≠ "todo" → s ≠ "done" → findColumnByPosition columns s = none) := by
  have hiE := isEmpty_false_of_ne_nil hne
  refine ⟨?_, ?_, fun s h1 h2 => findColumnByPosition_other columns s h1 h2⟩
  · intro h
    obtain ⟨c, hc, hmem, hmin⟩ := sortByPosition_head_min hne
    refine ⟨c, ?_, hmem, hmin⟩
    simp [inferColumnFromStatus, hiE, h, findColumnByPosition, hc]
  · intro h
    obtain ⟨c, hc, hmem, hmax⟩ := sortByPosition_getLast_max hne
    refine ⟨c, ?_, hmem, hmax⟩
    simp [inferColumnFromStatus, hiE, h, findColumnByPosition, hc]

/-- Witness for claim C5 at a concrete input. -/
theorem claim5_witness :
    ∃ c, inferColumnFromStatus
        [⟨"1", "p", "AAA", 2, none, false⟩, ⟨"2", "p", "BBB", 1, none, false⟩]
        "todo" = Except.ok (some c) ∧
      c ∈ [⟨"1", "p", "AAA", 2, none, false⟩, ⟨"2", "p", "BBB", 1, none, false⟩] ∧
      ∀ d ∈ [⟨"1", "p", "AAA", 2, none, false⟩,
             (⟨"2", "p", "BBB", 1, none, false⟩ : ProjectColumn)],
        c.position ≤ d.position :=
  (claim5_positional_fallback
    [⟨"1", "p", "AAA", 2, none, false⟩, ⟨"2", "p", "BBB", 1, none, false⟩]
    (by simp)).1 rfl

lemma alias_table_first_match : ∀ p ∈ STATUS_COLUMN_NAMES, ∀ n ∈ p.2,
    STATUS_COLUMN_NAMES.find? (fun q => q.2.contains n) = some p := by decide

/-- Claim C6: a column whose normalized name is an alias of canonical status
`S` maps back to `S` under `inferStatusFromColumn`; a column matching no alias
of any status maps to `null` — no fuzzy or positional fallback exists in this
direction. -/
theorem claim6_status_round_trip (column : ProjectColumn) :
    (∀ S aliases, (S, aliases) ∈ STATUS_COLUMN_NAMES →
        normalizeName column.name ∈ aliases →
        inferStatusFromColumn column = some S)
    ∧ ((∀ p ∈ STATUS_COLUMN_NAMES, normalizeName column.name ∉ p.2) →
        inferStatusFromColumn column = none) := by
  constructor
  · intro S aliases hmem hn
    unfold inferStatusFromColumn
    rw [alias_table_first_match (S, aliases) hmem (normalizeName column.name) hn]
    rfl
  · intro h
    unfold inferStatusFromColumn
    rw [List.find?_eq_none.mpr]
    · rfl
    · intro q hq
      simpa [List.elem_iff] using h q hq

/-- Witness for claim C6 at a concrete input. -/
theorem claim6_witness :
    inferStatusFromColumn ⟨"1", "p", " Doing ", 0, none, false⟩ =
      some "in_progress" :=
  (claim6_status_round_trip ⟨"1", "p", " Doing ", 0, none, false⟩).1
    "in_progress"
    ["in progress", "in_progress", "in-progress", "doing", "wip", "working", "active", "development", "dev"]
    (by simp [STATUS_COLUMN_NAMES]) (by decide)

/-- Claim C7: `findDefaultColumn` returns the first column flagged
`is_default` whenever one exists (regardless of positions); with no flagged
column it returns a lowest-position column; and it returns `null` exactly for
the empty list. -/
theorem claim7_default_column (columns : List ProjectColumn) :
    (∀ c, columns.find? (fun col => col.is_default) = some c →
        findDefaultColumn columns = some c)
    ∧ (columns ≠ [] → (∀ c ∈ columns, c.is_default = false) →
        ∃ c, findDefaultColumn columns = some c ∧ c ∈ columns ∧
          ∀ d ∈ columns, c.position ≤ d.position)
    ∧ (findDefaultColumn columns = none ↔ columns = []) := by
  refine ⟨?_, ?_, ?_⟩
  · intro c h
    have hne : columns ≠ [] := by
      intro hnil; subst hnil; simp at h
    simp [findDefaultColumn, isEmpty_false_of_ne_nil hne, h]
  · intro hne hflag
    have hfind : columns.find? (fun col => col.is_default) = none :=
      List.find?_eq_none.mpr (fun x hx => by simp [hflag x hx])
    obtain ⟨c, hc, hmem, hmin⟩ := sortByPosition_head_min hne
    exact ⟨c, by simp [findDefaultColumn, isEmpty_false_of_ne_nil hne, hfind, hc],
      hmem, hmin⟩
  · constructor
    · intro h
      by_contra hne
      rcases hfind : columns.find? (fun col => col.is_default) with _ | c
      · obtain ⟨c, hc, -, -⟩ := sortByPosition_head_min hne
        rw [findDefaultColumn, isEmpty_false_of_ne_nil hne] at h
        simp [hfind, hc] at h
      · rw [findDefaultColumn, isEmpty_false_of_ne_nil hne] at h
        simp [hfind] at h
    · intro h; subst h; rfl

/-- Witness for claim C7 at a concrete input: the flagged column wins even
though it is not at the lowest position. -/
theorem claim7_witness :
    findDefaultColumn
        [⟨"1", "p", "To Do", 0, none, false⟩, ⟨"2", "p", "Done", 9, none, true⟩] =
      some ⟨"2", "p", "Done", 9, none, true⟩ :=
  (claim7_default_column
    [⟨"1", "p", "To Do", 0, none, false⟩, ⟨"2", "p", "Done", 9, none, true⟩]).1
    ⟨"2", "p", "Done", 9, none, true⟩ rfl

lemma recordAll_eq (inputs : List (ColumnSyncEvent × String)) :
    recordAll inputs = inputs.map (fun p => { p.1 with timestamp := p.2 }) := by
  suffices h : ∀ acc, inputs.foldl (fun events p => telemetryLog events p.1 p.2) acc
      = acc ++ inputs.map (fun p => { p.1 with timestamp := p.2 }) by
    simpa [recordAll] using h []
  induction inputs with
  | nil => intro acc; simp
  | cons a t ih =>
      intro acc
      rw [List.foldl_cons, ih]
      simp [telemetryLog]

/-- Claim C8: after recording a sequence of events from a fresh telemetry
instance, `getMetrics` reports the event count, the failure count, and the
failure rate `F / N` (`0` for an empty log), and `getFailures` returns
exactly the failed events in log order. -/
theorem claim8_telemetry_metrics (inputs : List (ColumnSyncEvent × String)) :
    (getMetrics (recordAll inputs)).total_events = inputs.length
    ∧ (getMetrics (recordAll inputs)).failures =
        (inputs.filter (fun p => p.1.inference_failed)).length
    ∧ (getMetrics (recordAll inputs)).failure_rate =
        (if inputs.length > 0 then
          ((inputs.filter (fun p => p.1.inference_failed)).length : ℚ) /
            (inputs.length : ℚ)
        else 0)
    ∧ getFailures (recordAll inputs) =
        (inputs.filter (fun p => p.1.inference_failed)).map
          (fun p => { p.1 with timestamp := p.2 }) := by
  refine ⟨?_, ?_, ?_, ?_⟩ <;>
    simp [getMetrics, getFailures, recordAll_eq, List.filter_map,
      Function.comp_def]

/-- Claim C10: for a limit `n ≥ 1`, `getRecentFailures(n)` returns the last
`min(n, F)` failed events in log order; for `n = 0` it returns all `F` failed
events (because `slice(-0)` is `slice(0)`), not an empty list. -/
theorem claim10_recent_failures (events : List ColumnSyncEvent) (n : Nat)
    (hn : 1 ≤ n) :
    (getRecentFailures events n).length = min n (getFailures events).length
    ∧ (getFailures events).take ((getFailures events).length - n) ++
        getRecentFailures events n = getFailures events
    ∧ getRecentFailures events 0 = getFailures events := by
  have hn0 : n ≠ 0 := by omega
  refine ⟨?_, ?_, ?_⟩
  · simp [getRecentFailures, getFailures, hn0]
    omega
  · simp only [getRecentFailures, getFailures, hn0, if_neg, ite_false]
    exact List.take_append_drop _ _
  · simp [getRecentFailures, getFailures]

/-- Witness for claim C10 at a concrete input. -/
theorem claim10_witness :
    (getRecentFailures
        [⟨"t", 1, "complete", "in_progress", "done", "A", "B", true, true, "ts"⟩]
        2).length =
      min 2 (getFailures
        [⟨"t", 1, "complete", "in_progress", "done", "A", "B", true, true, "ts"⟩]).length
    ∧ (getFailures
        [⟨"t", 1, "complete", "in_progress", "done", "A", "B", true, true, "ts"⟩]).take
        ((getFailures
          [⟨"t", 1, "complete", "in_progress", "done", "A", "B", true, true, "ts"⟩]).length - 2) ++
        getRecentFailures
          [⟨"t", 1, "complete", "in_progress", "done", "A", "B", true, true, "ts"⟩] 2 =
      getFailures
        [⟨"t", 1, "complete", "in_progress", "done", "A", "B", true, true, "ts"⟩]
    ∧ getRecentFailures
        [⟨"t", 1, "complete", "in_progress", "done", "A", "B", true, true, "ts"⟩] 0 =
      getFailures
        [⟨"t", 1, "complete", "in_progress", "done", "A", "B", true, true, "ts"⟩] :=
  claim10_recent_failures
    [⟨"t", 1, "complete", "in_progress", "done", "A", "B", true, true, "ts"⟩] 2
    (by decide)

end JoanMcp
